import Mathlib

/-!
Verification of the zkvote cryptographic protocol core.

The JavaScript sources are shallowly embedded: field elements and hash
outputs are `Nat`, JavaScript BigInt inputs are `Int` where sign matters,
fallible functions return `Except String`.  The Poseidon permutation and
the keccak-based `ethers.id` live in external libraries (circomlibjs,
ethers), so every definition that hashes is parametrised by the hash
function; the theorems hold for an arbitrary hash, which is exactly the
strength the spec's algebraic claims need.
-/

deriving instance DecidableEq for Except

namespace ZkVote

/-- BN254 scalar field order `P` (`BN254_FIELD_ORDER` in src/unnamed/part_010). -/
def BN254_FIELD_ORDER : Nat :=
  21888242871839275222246405745257275088548364400416034343698204186575808495617

/-- secp256k1 group order `N` (`SECP256K1_N` in src/unnamed/part_010). -/
def SECP256K1_N : Nat :=
  115792089237316195423570985008687907852837564279074904382605163141518161494337

/-- Depth of the Merkle tree (`TREE_DEPTH` in src/unnamed/part_015). -/
def TREE_DEPTH : Nat := 7

/-- Padding value for Merkle tree leaves (`MERKLE_PADDING_VALUE` in
src/unnamed/part_015). -/
def MERKLE_PADDING_VALUE : Nat :=
  21888242871839275222246405745257275088548364400416034343698204186575808495616

/-- Embeds `validateFieldElement(value, name)` from src/unnamed/part_010: rejects
negatives and values at or above the BN254 field order.  The JS BigInt
conversion is already done (the argument is an `Int`). -/
def validateFieldElement (value : Int) (name : String) : Except String Int :=
  if value < 0 then .error (name ++ " must be non-negative")
  else if (BN254_FIELD_ORDER : Int) ≤ value then .error (name ++ " exceeds BN254 field order")
  else .ok value

/-- Embeds `validateEcdsaScalar(value, name)` from src/unnamed/part_010: rejects
non-positive values and values at or above the secp256k1 group order. -/
def validateEcdsaScalar (value : Int) (name : String) : Except String Int :=
  if value ≤ 0 then .error (name ++ " must be positive")
  else if (SECP256K1_N : Int) ≤ value then .error (name ++ " must be less than secp256k1 curve order")
  else .ok value

/-- Embeds `computeNullifier(sigR, sigS, topicIdHash, messageHash)` from
src/unnamed/part_010 (lines 100-123): validates the two signature scalars
and the two field elements, then hashes the four validated values.
`hashMany` stands for circomlibjs's Poseidon (`poseidonHashMany`). -/
def computeNullifier (hashMany : List Int → Nat) (sigR sigS topicIdHash messageHash : Int) :
    Except String Nat :=
  match (do
    let rField ← validateEcdsaScalar sigR "Signature r"
    let sField ← validateEcdsaScalar sigS "Signature s"
    let topicField ← validateFieldElement topicIdHash "Topic ID hash"
    let messageField ← validateFieldElement messageHash "Message hash"
    pure (hashMany [rField, sField, topicField, messageField]) : Except String Nat) with
  | .ok v => .ok v
  | .error e => .error ("Failed to compute nullifier: " ++ e)

/-- Numeric value of a hex digit character, as JavaScript's BigInt hex parse
sees it (ASCII codes: 0-9 are 48-57, a-f are 97-102, A-F are 65-70). -/
def hexDigitVal (c : Char) : Nat :=
  if 48 ≤ c.toNat ∧ c.toNat ≤ 57 then c.toNat - 48
  else if 97 ≤ c.toNat ∧ c.toNat ≤ 102 then c.toNat - 87
  else if 65 ≤ c.toNat ∧ c.toNat ≤ 70 then c.toNat - 55
  else 0

/-- Whether a character matches the `[a-fA-F0-9]` class of the address
regular expression in src/unnamed/part_010. -/
def isHexDigitChar (c : Char) : Bool :=
  (48 ≤ c.toNat ∧ c.toNat ≤ 57) ∨ (97 ≤ c.toNat ∧ c.toNat ≤ 102) ∨ (65 ≤ c.toNat ∧ c.toNat ≤ 70)

/-- Big-endian value of a hex digit string (JavaScript `BigInt("0x...")`). -/
def hexToNat : List Char → Nat
  | [] => 0
  | c :: cs => hexDigitVal c * 16 ^ cs.length + hexToNat cs

/-- Embeds `addressToFieldElement(address)` from src/unnamed/part_010 (lines 82-98):
requires the `0x` prefix, exactly 40 hex digits, and a value below the BN254
field order (checked by `validateFieldElement` inside), returning the raw
integer value of the address. -/
def addressToFieldElement (address : String) : Except String Nat :=
  if address.data.take 2 ≠ ['0', 'x'] then
    .error "Address must start with 0x prefix"
  else if ¬ (address.data.length = 42 ∧ (address.data.drop 2).all isHexDigitChar = true) then
    .error "Address must be a valid 20-byte Ethereum address"
  else
    let v := hexToNat (address.data.drop 2)
    if BN254_FIELD_ORDER ≤ v then
      .error "Failed to convert address to field element: Address exceeds BN254 field order"
    else .ok v

/-- Effectful map over a list in the `Except` monad, mirroring
`addresses.map(addr => addressToFieldElement(addr))` where the first
exception aborts the whole construction. -/
def mapExcept (f : α → Except ε β) : List α → Except ε (List β)
  | [] => .ok []
  | a :: as =>
    match f a with
    | .error e => .error e
    | .ok b =>
      match mapExcept f as with
      | .error e => .error e
      | .ok bs => .ok (b :: bs)

/-- Whether the list contains a duplicate entry; mirrors the
`new Set(normalizedAddresses).size !== normalizedAddresses.length` check of
`buildMerkleTree` (a JS Set collapses exactly the duplicates). -/
def hasDup [DecidableEq α] : List α → Bool
  | [] => false
  | a :: as => if a ∈ as then true else hasDup as

/-- Right-pad a list to the target size with a padding value; mirrors the
`while (paddedLeaves.length < targetSize) paddedLeaves.push(...)` loop. -/
def padTo (target : Nat) (pad : Nat) (xs : List Nat) : List Nat :=
  xs ++ List.replicate (target - xs.length) pad

/-- One bottom-up level step of `buildMerkleTree`: hash consecutive pairs.
Levels always have power-of-two (hence even) length in the program, so the
one-element case is never reached. -/
def hashLevel (h2 : Nat → Nat → Nat) : List Nat → List Nat
  | [] => []
  | [_] => []
  | a :: b :: rest => h2 a b :: hashLevel h2 rest

/-- The level structure built by the `for (level = 0; level < TREE_DEPTH; ...)`
loop of `buildMerkleTree`: `d + 1` levels, level 0 being the padded leaves. -/
def buildLevels (h2 : Nat → Nat → Nat) : Nat → List Nat → List (List Nat)
  | 0, cur => [cur]
  | d + 1, cur => cur :: buildLevels h2 d (hashLevel h2 cur)

/-- The tree object returned by `buildMerkleTree` in src/unnamed/part_013. -/
structure MerkleTree where
  root : Nat
  tree : List (List Nat)
  leaves : List Nat
deriving Repr, DecidableEq, Inhabited

/-- Embeds `buildMerkleTree(addresses)` from src/unnamed/part_013 (lines 14-66):
empty-list check, capacity check against `2 ^ TREE_DEPTH`, duplicate check
after lowercasing, conversion of every address through the field codec,
right-padding with the sentinel, and the bottom-up pairwise hashing loop.
`h2` stands for `poseidonHash2`. -/
def buildMerkleTree (h2 : Nat → Nat → Nat) (addresses : List String) :
    Except String MerkleTree :=
  if addresses.length = 0 then
    .error "Cannot build Merkle tree from empty array"
  else if 2 ^ TREE_DEPTH < addresses.length then
    .error "Too many addresses for tree depth"
  else
    let normalizedAddresses := addresses.map String.toLower
    if hasDup normalizedAddresses then
      .error "Duplicate addresses detected in voter list"
    else
      match mapExcept addressToFieldElement addresses with
      | .error e => .error ("Failed to build Merkle tree: " ++ e)
      | .ok leaves =>
        let paddedLeaves := padTo (2 ^ TREE_DEPTH) MERKLE_PADDING_VALUE leaves
        let tree := buildLevels h2 TREE_DEPTH paddedLeaves
        .ok { root := (tree.getD TREE_DEPTH []).getD 0 0
              tree := tree
              leaves := paddedLeaves }

/-- A Merkle proof as returned by `getMerkleProof`. -/
structure MerkleProof where
  siblings : List Nat
  pathIndices : List Nat
deriving Repr, DecidableEq, Inhabited

/-- Sibling index selection by parity, as in `getMerkleProof`:
`isRight ? index - 1 : index + 1`. -/
def sibIndex (index : Nat) : Nat :=
  if index % 2 = 1 then index - 1 else index + 1

/-- The `for (level = 0; level < TREE_DEPTH; ...)` loop of `getMerkleProof`,
consuming one tree level per step; `fuel` counts the remaining levels.  The
JS bound check `siblingIndex < 0` cannot fire (the running index stays
non-negative), so only the upper bound remains. -/
def buildProofPath (levels : List (List Nat)) : Nat → Nat → Except String (List Nat × List Nat)
  | 0, _ => .ok ([], [])
  | fuel + 1, index =>
    let lvl := levels.headD []
    let sibIdx := sibIndex index
    if lvl.length ≤ sibIdx then .error "Invalid sibling index"
    else
      match buildProofPath levels.tail fuel (index / 2) with
      | .error e => .error e
      | .ok (sibs, pis) =>
        .ok (lvl.getD sibIdx 0 :: sibs, (if index % 2 = 1 then 1 else 0) :: pis)

/-- Embeds `getMerkleProof(tree, leafIndex)` from src/unnamed/part_013 (lines
75-109): rejects an empty tree, a negative index, and an index at or past
the leaf-level size, then walks the levels collecting siblings and path
bits while halving the index. -/
def getMerkleProof (tree : List (List Nat)) (leafIndex : Int) : Except String MerkleProof :=
  if tree.length = 0 then .error "Invalid tree structure: must be a non-empty array"
  else if leafIndex < 0 then .error "Invalid leaf index"
  else if ((tree.headD []).length : Int) ≤ leafIndex then .error "Leaf index out of bounds"
  else
    match buildProofPath tree TREE_DEPTH leafIndex.toNat with
    | .error e => .error e
    | .ok (sibs, pis) => .ok { siblings := sibs, pathIndices := pis }

/-- The root recomputation loop of `verifyMerkleProof`: runs exactly
`TREE_DEPTH` iterations, reading `siblings[i]` and `pathIndices[i]`
positionally (`headD`/`tail` of the remaining lists agrees with indexed
access, with JS `undefined` modelled by the default 0). -/
def computeMerkleRoot (h2 : Nat → Nat → Nat) : Nat → List Nat → List Nat → Nat → Nat
  | 0, _, _, current => current
  | fuel + 1, sibs, pis, current =>
    let sibling := sibs.headD 0
    let next := if pis.headD 0 = 1 then h2 sibling current else h2 current sibling
    computeMerkleRoot h2 fuel sibs.tail pis.tail next

/-- Embeds `verifyMerkleProof(leaf, proof, root)` from src/unnamed/part_013 (lines
119-134): fold the proof path from the leaf and compare with the root. -/
def verifyMerkleProof (h2 : Nat → Nat → Nat) (leaf : Nat) (proof : MerkleProof) (root : Nat) :
    Bool :=
  computeMerkleRoot h2 TREE_DEPTH proof.siblings proof.pathIndices leaf = root

/-- Outcome of submitting a nullifier to the registry (spec section 4.5). -/
inductive VoteResult where
  | accepted
  | rejectedDoubleVote
deriving Repr, DecidableEq

/-- The atomic check-then-insert on the nullifier registry.  The registry is
the JS `Set` of src/tests/test-double-voting.js (`nullifierRegistry`), and
the operation is its inline pattern: `has` then either reject or `add`. -/
def checkAndInsert (registry : List Nat) (nullifier : Nat) : VoteResult × List Nat :=
  if nullifier ∈ registry then (.rejectedDoubleVote, registry)
  else (.accepted, nullifier :: registry)

/-- Maximum topic id length (`MAX_TOPIC_ID_LENGTH` in src/unnamed/part_015). -/
def MAX_TOPIC_ID_LENGTH : Nat := 256

/-- Whether a character matches `TOPIC_ID_PATTERN`'s `[a-zA-Z0-9_-]` class
(src/unnamed/part_015).  ASCII codes: 0-9 are 48-57, A-Z are 65-90,
a-z are 97-122, underscore is 95, hyphen is 45. -/
def isTopicIdChar (c : Char) : Bool :=
  (48 ≤ c.toNat ∧ c.toNat ≤ 57) ∨ (65 ≤ c.toNat ∧ c.toNat ≤ 90) ∨
    (97 ≤ c.toNat ∧ c.toNat ≤ 122) ∨ c.toNat = 95 ∨ c.toNat = 45

/-- The fixed `DOMAIN_CONFIG` fields (src/unnamed/part_015): scheme name,
version, environment-configured chain id and verifying-contract placeholder. -/
structure DomainConfig where
  name : String
  version : String
  chainId : Nat
  verifyingContract : String
deriving Repr, DecidableEq

/-- An EIP-712 domain as returned by `createDomain`: the config fields
spread, plus the topic-specific salt. -/
structure Domain where
  name : String
  version : String
  chainId : Nat
  verifyingContract : String
  salt : Nat
deriving Repr, DecidableEq

/-- Embeds `createDomain(topicId)` from src/utils/eip712.js (lines 91-108):
rejects an empty topic id, one over `MAX_TOPIC_ID_LENGTH`, or one with a
character outside `TOPIC_ID_PATTERN`; otherwise spreads `DOMAIN_CONFIG`
and adds `salt: ethers.id(topicId)`.  `idHash` stands for `ethers.id`. -/
def createDomain (config : DomainConfig) (idHash : String → Nat) (topicId : String) :
    Except String Domain :=
  if topicId = "" then
    .error "Topic ID must be a non-empty string"
  else if MAX_TOPIC_ID_LENGTH < topicId.length then
    .error "Topic ID exceeds maximum length"
  else if ¬ topicId.data.all isTopicIdChar then
    .error "Topic ID contains invalid characters"
  else
    .ok { name := config.name
          version := config.version
          chainId := config.chainId
          verifyingContract := config.verifyingContract
          salt := idHash topicId }

/-- The circuit input record assembled by `generateProof`
(src/scripts/generate-proof.js). -/
structure ProofInput where
  merkleRoot : Nat
  topicId : Nat
  messageHash : Nat
  voterAddress : Nat
  pathElements : List Nat
  pathIndices : List Nat
  sigR : Nat
  sigS : Nat
  sigV : Nat
deriving Repr, DecidableEq

/-- The proof-input assembly slice of `generateProof`
(src/scripts/generate-proof.js, lines 139-184): on the `useInvalid` path a
sentinel-filled pseudo-proof replaces the real Merkle proof; both proof
arrays are then length-checked against `TREE_DEPTH` before the record is
assembled. -/
def assembleProofInput (merkleRoot topicIdHash messageHash voterAddress sigR sigS sigV : Nat)
    (useInvalid : Bool) (realProof : MerkleProof) : Except String ProofInput :=
  let merkleProof : MerkleProof :=
    if useInvalid then
      { siblings := List.replicate TREE_DEPTH MERKLE_PADDING_VALUE
        pathIndices := List.replicate TREE_DEPTH 0 }
    else realProof
  if merkleProof.siblings.length ≠ TREE_DEPTH then
    .error "Invalid Merkle proof: wrong number of siblings"
  else if merkleProof.pathIndices.length ≠ TREE_DEPTH then
    .error "Invalid Merkle proof: wrong number of pathIndices"
  else
    .ok { merkleRoot := merkleRoot
          topicId := topicIdHash
          messageHash := messageHash
          voterAddress := voterAddress
          pathElements := merkleProof.siblings
          pathIndices := merkleProof.pathIndices
          sigR := sigR
          sigS := sigS
          sigV := sigV }

/-- Concrete two-input hash instantiating the abstract Poseidon parameter in
witness statements. -/
def wh2fn : Nat → Nat → Nat := fun a b => a + b

/-- Concrete valid voter address used in witness statements. -/
def wAddress : String := "0x0000000000000000000000000000000000000000"

/-- Second concrete valid voter address used in witness statements. -/
def wAddressB : String := "0x00000000000000000000000000000000000000ff"

/-- The tree built from the single voter `wAddress` under `wh2fn`. -/
def wTree : MerkleTree :=
  match buildMerkleTree wh2fn [wAddress] with
  | .ok t => t
  | .error _ => default

/-- A concrete all-zero level structure of the program's depth, used to run
`getMerkleProof` on a concrete input. -/
def wTree6 : List (List Nat) :=
  (List.range (TREE_DEPTH + 1)).map fun l => List.replicate (2 ^ (TREE_DEPTH - l)) 0

/-- The proof `getMerkleProof wTree6 3` evaluates to. -/
def wPf6 : MerkleProof :=
  { siblings := [0, 0, 0, 0, 0, 0, 0], pathIndices := [1, 1, 0, 0, 0, 0, 0] }

/-- Concrete domain configuration mirroring the default `DOMAIN_CONFIG`. -/
def wDomainConfig : DomainConfig :=
  { name := "ZKVoting", version := "1", chainId := 1,
    verifyingContract := "0x0000000000000000000000000000000000000000" }

/-- Concrete stand-in for the keccak-based `ethers.id` in witness statements. -/
def wIdHash : String → Nat := fun _ => 7

/-! ## Helper lemmas -/

theorem hasDup_iff_not_nodup [DecidableEq α] : ∀ l : List α, hasDup l = true ↔ ¬ l.Nodup
  | [] => by simp [hasDup]
  | a :: as => by
    by_cases h : a ∈ as
    · simp [hasDup, h, List.nodup_cons]
    · simp [hasDup, h, List.nodup_cons, hasDup_iff_not_nodup as]

theorem mapExcept_length (f : α → Except ε β) :
    ∀ (l : List α) (ys : List β), mapExcept f l = .ok ys → ys.length = l.length
  | [], ys, h => by
    simp only [mapExcept, Except.ok.injEq] at h
    subst h; rfl
  | a :: as, ys, h => by
    unfold mapExcept at h
    cases hfa : f a with
    | error e => rw [hfa] at h; exact absurd h (by simp)
    | ok b =>
      rw [hfa] at h
      cases hrest : mapExcept f as with
      | error e => rw [hrest] at h; exact absurd h (by simp)
      | ok bs =>
        rw [hrest] at h
        simp only [Except.ok.injEq] at h
        subst h
        simp [mapExcept_length f as bs hrest]

theorem padTo_length (target pad : Nat) (xs : List Nat) (h : xs.length ≤ target) :
    (padTo target pad xs).length = target := by
  simp only [padTo, List.length_append, List.length_replicate]
  omega

theorem getD_replicate_of_lt (pad : Nat) : ∀ (n j : Nat), j < n →
    (List.replicate n pad).getD j 0 = pad
  | n + 1, 0, _ => rfl
  | n + 1, j + 1, h => by
    rw [List.replicate_succ, List.getD_cons_succ]
    exact getD_replicate_of_lt pad n j (by omega)

theorem hexDigitVal_lt (c : Char) : hexDigitVal c < 16 := by
  unfold hexDigitVal
  split_ifs <;> omega

theorem hexToNat_lt : ∀ cs : List Char, hexToNat cs < 16 ^ cs.length
  | [] => by simp [hexToNat]
  | c :: cs => by
    have h1 := hexDigitVal_lt c
    have h2 := hexToNat_lt cs
    have h3 : hexDigitVal c * 16 ^ cs.length ≤ 15 * 16 ^ cs.length :=
      Nat.mul_le_mul_right _ (by omega)
    simp only [hexToNat, List.length_cons, pow_succ]
    omega

theorem addressToFieldElement_lt (a : String) (v : Nat)
    (h : addressToFieldElement a = .ok v) : v < 16 ^ 40 := by
  unfold addressToFieldElement at h
  simp only [] at h
  split_ifs at h with h1 h2 h3
  simp only [Except.ok.injEq, reduceCtorEq] at h
  subst h
  have hlen : (a.data.drop 2).length = 40 := by
    rw [List.length_drop, h2.1]
  have := hexToNat_lt (a.data.drop 2)
  rwa [hlen] at this

theorem buildLevels_length (h2 : Nat → Nat → Nat) :
    ∀ (d : Nat) (cur : List Nat), (buildLevels h2 d cur).length = d + 1
  | 0, _ => rfl
  | d + 1, cur => by
    simp [buildLevels, buildLevels_length h2 d]

theorem buildLevels_headD (h2 : Nat → Nat → Nat) (d : Nat) (cur : List Nat) :
    (buildLevels h2 d cur).headD [] = cur := by
  cases d <;> rfl

theorem buildMerkleTree_ok (h2 : Nat → Nat → Nat) (addresses : List String) (t : MerkleTree)
    (hb : buildMerkleTree h2 addresses = .ok t) :
    ∃ leaves, mapExcept addressToFieldElement addresses = .ok leaves ∧
      leaves.length = addresses.length ∧
      0 < addresses.length ∧ addresses.length ≤ 2 ^ TREE_DEPTH ∧
      t.leaves = padTo (2 ^ TREE_DEPTH) MERKLE_PADDING_VALUE leaves ∧
      t.tree = buildLevels h2 TREE_DEPTH t.leaves ∧
      t.root = (t.tree.getD TREE_DEPTH []).getD 0 0 := by
  unfold buildMerkleTree at hb
  simp only [] at hb
  split_ifs at hb with h1 h2c h3
  cases hmap : mapExcept addressToFieldElement addresses with
  | error e => rw [hmap] at hb; exact absurd hb (by simp)
  | ok leaves =>
    rw [hmap] at hb
    simp only [Except.ok.injEq] at hb
    subst hb
    exact ⟨leaves, rfl, mapExcept_length _ _ _ hmap, by omega, by omega, rfl, rfl, rfl⟩

theorem tail_getD (l : List (List Nat)) (n : Nat) :
    l.tail.getD n [] = l.getD (n + 1) [] := by
  cases l <;> simp [List.getD_cons_succ]

theorem hashLevel_length (h2 : Nat → Nat → Nat) :
    ∀ l : List Nat, (hashLevel h2 l).length = l.length / 2
  | [] => by simp [hashLevel]
  | [_] => by simp [hashLevel]
  | _ :: _ :: rest => by
    simp only [hashLevel, List.length_cons, hashLevel_length h2 rest]
    omega

theorem hashLevel_getD (h2 : Nat → Nat → Nat) :
    ∀ (l : List Nat) (k : Nat), 2 * k + 1 < l.length →
      (hashLevel h2 l).getD k 0 = h2 (l.getD (2 * k) 0) (l.getD (2 * k + 1) 0)
  | [], _, h => by simp at h
  | [_], _, h => by simp at h
  | a :: b :: rest, 0, _ => by simp [hashLevel]
  | a :: b :: rest, k + 1, h => by
    have hrec := hashLevel_getD h2 rest k (by simp only [List.length_cons] at h; omega)
    have e1 : 2 * (k + 1) = 2 * k + 1 + 1 := by ring
    have e2 : 2 * (k + 1) + 1 = 2 * k + 1 + 1 + 1 := by ring
    simp only [hashLevel, List.getD_cons_succ, e1, e2]
    exact hrec

theorem buildProofPath_computeRoot (h2 : Nat → Nat → Nat) :
    ∀ (d : Nat) (cur : List Nat), cur.length = 2 ^ d → ∀ index, index < cur.length →
    ∃ sibs pis,
      buildProofPath (buildLevels h2 d cur) d index = .ok (sibs, pis) ∧
      computeMerkleRoot h2 d sibs pis (cur.getD index 0) =
        ((buildLevels h2 d cur).getD d []).getD 0 0
  | 0, cur, hlen, index, hidx => by
    refine ⟨[], [], rfl, ?_⟩
    have hzero : index = 0 := by
      rw [hlen] at hidx
      simpa using hidx
    subst hzero
    simp [buildLevels, computeMerkleRoot]
  | d + 1, cur, hlen, index, hidx => by
    have hne : cur.length = 2 * 2 ^ d := by rw [hlen]; ring
    have hnlen : (hashLevel h2 cur).length = 2 ^ d := by
      rw [hashLevel_length, hne]; omega
    have hidx2 : index / 2 < (hashLevel h2 cur).length := by
      rw [hnlen]
      omega
    obtain ⟨sibs, pis, hok, hroot⟩ :=
      buildProofPath_computeRoot h2 d (hashLevel h2 cur) hnlen (index / 2) hidx2
    have hsib : sibIndex index < cur.length := by
      unfold sibIndex
      split <;> omega
    refine ⟨cur.getD (sibIndex index) 0 :: sibs, (if index % 2 = 1 then 1 else 0) :: pis, ?_, ?_⟩
    · show buildProofPath (cur :: buildLevels h2 d (hashLevel h2 cur)) (d + 1) index = _
      unfold buildProofPath
      simp only [List.headD_cons, List.tail_cons]
      rw [if_neg (by omega), hok]
    · have hstep :
          (if (if index % 2 = 1 then (1 : Nat) else 0) = 1 then
              h2 (cur.getD (sibIndex index) 0) (cur.getD index 0)
            else h2 (cur.getD index 0) (cur.getD (sibIndex index) 0)) =
            (hashLevel h2 cur).getD (index / 2) 0 := by
        rcases Nat.even_or_odd index with he | ho
        · have hmod : index % 2 = 0 := Nat.even_iff.mp he
          have hdiv : 2 * (index / 2) = index := by omega
          have hsi : sibIndex index = index + 1 := by
            unfold sibIndex; rw [if_neg (by omega)]
          have hbound : 2 * (index / 2) + 1 < cur.length := by
            rw [hsi] at hsib; omega
          rw [hashLevel_getD h2 cur (index / 2) hbound, hdiv]
          simp [hmod, hsi]
        · have hmod : index % 2 = 1 := Nat.odd_iff.mp ho
          have hdiv : 2 * (index / 2) = index - 1 := by omega
          have hbound : 2 * (index / 2) + 1 < cur.length := by omega
          have hsi : sibIndex index = index - 1 := by unfold sibIndex; rw [if_pos hmod]
          rw [hashLevel_getD h2 cur (index / 2) hbound, hdiv]
          have hone : index - 1 + 1 = index := by omega
          rw [hone]
          simp [hmod, hsi]
      show computeMerkleRoot h2 (d + 1) _ _ _ =
        ((cur :: buildLevels h2 d (hashLevel h2 cur)).getD (d + 1) []).getD 0 0
      unfold computeMerkleRoot
      simp only [List.headD_cons, List.tail_cons, List.getD_cons_succ]
      rw [hstep]
      exact hroot

theorem headD_eq_getD (l : List (List Nat)) : l.headD [] = l.getD 0 [] := by
  cases l <;> rfl

theorem buildProofPath_ok :
    ∀ (fuel : Nat) (levels : List (List Nat)) (index : Nat) (sibs pis : List Nat),
      buildProofPath levels fuel index = .ok (sibs, pis) →
      sibs.length = fuel ∧ pis.length = fuel ∧
      ∀ l, l < fuel →
        pis.getD l 0 = (if (index / 2 ^ l) % 2 = 1 then 1 else 0) ∧
        sibs.getD l 0 = (levels.getD l []).getD (sibIndex (index / 2 ^ l)) 0
  | 0, levels, index, sibs, pis, h => by
    simp only [buildProofPath, Except.ok.injEq, Prod.mk.injEq] at h
    obtain ⟨h1, h2⟩ := h
    subst h1; subst h2
    exact ⟨rfl, rfl, fun l hl => absurd hl (by omega)⟩
  | fuel + 1, levels, index, sibs, pis, h => by
    unfold buildProofPath at h
    simp only [] at h
    by_cases hbnd : (levels.headD []).length ≤ sibIndex index
    · rw [if_pos hbnd] at h; exact absurd h (by simp)
    rw [if_neg hbnd] at h
    cases hrec : buildProofPath levels.tail fuel (index / 2) with
    | error e => rw [hrec] at h; exact absurd h (by simp)
    | ok p =>
      obtain ⟨sibs0, pis0⟩ := p
      rw [hrec] at h
      simp only [Except.ok.injEq, Prod.mk.injEq] at h
      obtain ⟨h1, h2⟩ := h
      subst h1; subst h2
      obtain ⟨hl1, hl2, hl3⟩ := buildProofPath_ok fuel levels.tail (index / 2) sibs0 pis0 hrec
      refine ⟨by simp [hl1], by simp [hl2], ?_⟩
      intro l hl
      cases l with
      | zero =>
        refine ⟨?_, ?_⟩
        · simp only [List.getD_cons_zero, pow_zero, Nat.div_one]
        · simp only [List.getD_cons_zero, pow_zero, Nat.div_one]
          rw [headD_eq_getD]
      | succ l =>
        obtain ⟨hp, hs⟩ := hl3 l (by omega)
        have hpow : index / 2 / 2 ^ l = index / 2 ^ (l + 1) := by
          rw [Nat.div_div_eq_div_mul]
          congr 1
          ring
        refine ⟨?_, ?_⟩
        · rw [List.getD_cons_succ, hp, hpow]
        · rw [List.getD_cons_succ, hs, hpow, tail_getD]

theorem validateEcdsaScalar_pos (v : Int) (name : String) (h1 : 0 < v)
    (h2 : v < (SECP256K1_N : Int)) : validateEcdsaScalar v name = .ok v := by
  unfold validateEcdsaScalar
  rw [if_neg (not_le.mpr h1), if_neg (not_le.mpr h2)]

theorem validateEcdsaScalar_neg (v : Int) (name : String)
    (h : v ≤ 0 ∨ (SECP256K1_N : Int) ≤ v) : ∃ e, validateEcdsaScalar v name = .error e := by
  unfold validateEcdsaScalar
  rcases h with h | h
  · exact ⟨_, by rw [if_pos h]⟩
  · by_cases h0 : v ≤ 0
    · exact ⟨_, by rw [if_pos h0]⟩
    · exact ⟨_, by rw [if_neg h0, if_pos h]⟩

theorem validateFieldElement_pos (v : Int) (name : String) (h1 : 0 ≤ v)
    (h2 : v < (BN254_FIELD_ORDER : Int)) : validateFieldElement v name = .ok v := by
  unfold validateFieldElement
  rw [if_neg (not_lt.mpr h1), if_neg (not_le.mpr h2)]

theorem validateFieldElement_neg (v : Int) (name : String)
    (h : v < 0 ∨ (BN254_FIELD_ORDER : Int) ≤ v) : ∃ e, validateFieldElement v name = .error e := by
  unfold validateFieldElement
  rcases h with h | h
  · exact ⟨_, by rw [if_pos h]⟩
  · by_cases h0 : v < 0
    · exact ⟨_, by rw [if_pos h0]⟩
    · exact ⟨_, by rw [if_neg h0, if_pos h]⟩

theorem computeNullifier_valid (hashMany : List Int → Nat) (r s t m : Int)
    (hr1 : 0 < r) (hr2 : r < (SECP256K1_N : Int)) (hs1 : 0 < s) (hs2 : s < (SECP256K1_N : Int))
    (ht1 : 0 ≤ t) (ht2 : t < (BN254_FIELD_ORDER : Int)) (hm1 : 0 ≤ m)
    (hm2 : m < (BN254_FIELD_ORDER : Int)) :
    computeNullifier hashMany r s t m = .ok (hashMany [r, s, t, m]) := by
  unfold computeNullifier
  rw [validateEcdsaScalar_pos r _ hr1 hr2, validateEcdsaScalar_pos s _ hs1 hs2,
      validateFieldElement_pos t _ ht1 ht2, validateFieldElement_pos m _ hm1 hm2]
  rfl

theorem computeNullifier_invalid (hashMany : List Int → Nat) (r s t m : Int)
    (h : ¬ (0 < r ∧ r < (SECP256K1_N : Int) ∧ 0 < s ∧ s < (SECP256K1_N : Int) ∧
            0 ≤ t ∧ t < (BN254_FIELD_ORDER : Int) ∧ 0 ≤ m ∧ m < (BN254_FIELD_ORDER : Int))) :
    ∃ e, computeNullifier hashMany r s t m = .error e := by
  unfold computeNullifier
  by_cases hr : 0 < r ∧ r < (SECP256K1_N : Int)
  case neg =>
    obtain ⟨e, he⟩ := validateEcdsaScalar_neg r "Signature r" (by omega)
    rw [he]
    exact ⟨_, rfl⟩
  rw [validateEcdsaScalar_pos r _ hr.1 hr.2]
  by_cases hs : 0 < s ∧ s < (SECP256K1_N : Int)
  case neg =>
    obtain ⟨e, he⟩ := validateEcdsaScalar_neg s "Signature s" (by omega)
    rw [he]
    exact ⟨_, rfl⟩
  rw [validateEcdsaScalar_pos s _ hs.1 hs.2]
  by_cases ht : 0 ≤ t ∧ t < (BN254_FIELD_ORDER : Int)
  case neg =>
    obtain ⟨e, he⟩ := validateFieldElement_neg t "Topic ID hash" (by omega)
    rw [he]
    exact ⟨_, rfl⟩
  rw [validateFieldElement_pos t _ ht.1 ht.2]
  obtain ⟨e, he⟩ := validateFieldElement_neg m "Message hash" (by omega)
  rw [he]
  exact ⟨_, rfl⟩

set_option maxRecDepth 8000 in
theorem wTree_build : buildMerkleTree wh2fn [wAddress] = .ok wTree := by decide

/-! ## Claims -/

/-- C1: for every successfully built tree and every leaf index `i` below the
padded leaf-level size `2 ^ TREE_DEPTH`, the proof produced by
`getMerkleProof` for index `i` verifies against the tree's root:
`verifyMerkleProof (leaves[i], getMerkleProof(tree, i), root)` returns true. -/
theorem merkle_roundtrip (h2 : Nat → Nat → Nat) (addresses : List String) (t : MerkleTree)
    (hbuild : buildMerkleTree h2 addresses = .ok t) (i : Nat) (hi : i < 2 ^ TREE_DEPTH) :
    ∃ pf, getMerkleProof t.tree (i : Int) = .ok pf ∧
      verifyMerkleProof h2 (t.leaves.getD i 0) pf t.root = true := by
  obtain ⟨leaves, hmap, hlenl, hpos, hle, hleq, htree, hroot⟩ :=
    buildMerkleTree_ok h2 addresses t hbuild
  have hplen : t.leaves.length = 2 ^ TREE_DEPTH := by
    rw [hleq]; exact padTo_length _ _ _ (by omega)
  obtain ⟨sibs, pis, hok, hcomp⟩ :=
    buildProofPath_computeRoot h2 TREE_DEPTH t.leaves hplen i (by omega)
  have hlen0 : t.tree.length = TREE_DEPTH + 1 := by
    rw [htree]; exact buildLevels_length h2 _ _
  have hhead : t.tree.headD [] = t.leaves := by
    rw [htree]; exact buildLevels_headD h2 _ _
  refine ⟨⟨sibs, pis⟩, ?_, ?_⟩
  · unfold getMerkleProof
    have hcast : (i : Int) < ((2 ^ TREE_DEPTH : Nat) : Int) := by exact_mod_cast hi
    rw [if_neg (by omega), if_neg (not_lt.mpr (Int.natCast_nonneg i)),
        if_neg (by rw [hhead, hplen]; exact not_le.mpr hcast)]
    have htn : ((i : Int)).toNat = i := Int.toNat_natCast i
    rw [htn, htree, hok]
  · simp only [verifyMerkleProof, decide_eq_true_eq]
    rw [hcomp, hroot, htree]

/-- Witness for C1 at a concrete one-voter tree and leaf index 0. -/
theorem merkle_roundtrip_witness :
    buildMerkleTree wh2fn [wAddress] = .ok wTree ∧ (0 : Nat) < 2 ^ TREE_DEPTH ∧
    ∃ pf, getMerkleProof wTree.tree ((0 : Nat) : Int) = .ok pf ∧
      verifyMerkleProof wh2fn (wTree.leaves.getD 0 0) pf wTree.root = true :=
  ⟨wTree_build, by decide, merkle_roundtrip wh2fn [wAddress] wTree wTree_build 0 (by decide)⟩

/-- C2: `computeNullifier` succeeds exactly when `sigR` and `sigS` are valid
ECDSA scalars (strictly between 0 and the secp256k1 order) and `topicHash`
and `messageHash` are valid BN254 field elements, and on success returns
precisely the Poseidon hash of the four-element sequence; on any range
failure it propagates an error. -/
theorem computeNullifier_spec (hashMany : List Int → Nat) (r s t m : Int) :
    (computeNullifier hashMany r s t m = .ok (hashMany [r, s, t, m]) ↔
      (0 < r ∧ r < (SECP256K1_N : Int) ∧ 0 < s ∧ s < (SECP256K1_N : Int) ∧
       0 ≤ t ∧ t < (BN254_FIELD_ORDER : Int) ∧ 0 ≤ m ∧ m < (BN254_FIELD_ORDER : Int))) ∧
    ((∃ e, computeNullifier hashMany r s t m = .error e) ↔
      ¬ (0 < r ∧ r < (SECP256K1_N : Int) ∧ 0 < s ∧ s < (SECP256K1_N : Int) ∧
         0 ≤ t ∧ t < (BN254_FIELD_ORDER : Int) ∧ 0 ≤ m ∧ m < (BN254_FIELD_ORDER : Int))) := by
  by_cases hv : (0 < r ∧ r < (SECP256K1_N : Int) ∧ 0 < s ∧ s < (SECP256K1_N : Int) ∧
      0 ≤ t ∧ t < (BN254_FIELD_ORDER : Int) ∧ 0 ≤ m ∧ m < (BN254_FIELD_ORDER : Int))
  · obtain ⟨h1, h2, h3, h4, h5, h6, h7, h8⟩ := hv
    have hok := computeNullifier_valid hashMany r s t m h1 h2 h3 h4 h5 h6 h7 h8
    constructor
    · simp only [hok, true_iff]
      exact ⟨h1, h2, h3, h4, h5, h6, h7, h8⟩
    · rw [hok]
      simp only [reduceCtorEq, exists_false, false_iff, not_not]
      exact ⟨h1, h2, h3, h4, h5, h6, h7, h8⟩
  · obtain ⟨e, he⟩ := computeNullifier_invalid hashMany r s t m hv
    constructor
    · rw [he]
      simp only [reduceCtorEq, false_iff]
      exact hv
    · exact ⟨fun _ => hv, fun _ => ⟨e, he⟩⟩

/-- C3: on the nullifier registry, check-then-insert of a fresh nullifier
accepts and inserts it, repeating the same nullifier rejects as a double
vote and leaves the registry unchanged, a distinct nullifier still accepts,
and the registry only ever grows. -/
theorem registry_spec (n nDiff : Nat) (hne : nDiff ≠ n) :
    (checkAndInsert [] n).1 = .accepted ∧
    (checkAndInsert [] n).2 = [n] ∧
    (checkAndInsert [n] n).1 = .rejectedDoubleVote ∧
    (checkAndInsert [n] n).2 = [n] ∧
    (checkAndInsert [n] nDiff).1 = .accepted ∧
    ∀ (registry : List Nat) (m : Nat), registry ⊆ (checkAndInsert registry m).2 := by
  refine ⟨by simp [checkAndInsert], by simp [checkAndInsert], by simp [checkAndInsert],
    by simp [checkAndInsert], by simp [checkAndInsert, hne], ?_⟩
  intro registry m
  unfold checkAndInsert
  split
  · exact fun x hx => hx
  · exact List.subset_cons_self _ _

/-- Witness for C3 at nullifiers 0 and 1. -/
theorem registry_spec_witness :
    (1 : Nat) ≠ 0 ∧ (checkAndInsert [] 0).1 = VoteResult.accepted ∧
    (checkAndInsert [0] 0).1 = VoteResult.rejectedDoubleVote ∧
    (checkAndInsert [0] 1).1 = VoteResult.accepted :=
  ⟨by decide, (registry_spec 0 1 (by decide)).1, (registry_spec 0 1 (by decide)).2.2.1,
   (registry_spec 0 1 (by decide)).2.2.2.2.1⟩

/-- C4: every successful build has a leaf level of exactly `2 ^ TREE_DEPTH`
entries, every entry at or past the original address count equals the
sentinel `MERKLE_PADDING_VALUE`, and the sentinel differs from the field
element of every possible 20-byte address. -/
theorem buildMerkleTree_padding (h2 : Nat → Nat → Nat) (addresses : List String) (t : MerkleTree)
    (hbuild : buildMerkleTree h2 addresses = .ok t) :
    t.leaves.length = 2 ^ TREE_DEPTH ∧
    (∀ j, addresses.length ≤ j → j < 2 ^ TREE_DEPTH →
      t.leaves.getD j 0 = MERKLE_PADDING_VALUE) ∧
    (∀ a v, addressToFieldElement a = .ok v → v ≠ MERKLE_PADDING_VALUE) := by
  obtain ⟨leaves, hmap, hlenl, hpos, hle, hleq, htree, hroot⟩ :=
    buildMerkleTree_ok h2 addresses t hbuild
  refine ⟨?_, ?_, ?_⟩
  · rw [hleq]; exact padTo_length _ _ _ (by omega)
  · intro j hj1 hj2
    rw [hleq]
    unfold padTo
    rw [List.getD_append_right _ _ _ _ (by omega)]
    exact getD_replicate_of_lt _ _ _ (by omega)
  · intro a v hv
    have hsmall := addressToFieldElement_lt a v hv
    have hlt : (16 : Nat) ^ 40 < MERKLE_PADDING_VALUE := by decide
    omega

/-- Witness for C4 at the concrete one-voter tree. -/
theorem buildMerkleTree_padding_witness :
    wTree.leaves.length = 2 ^ TREE_DEPTH ∧
    wTree.leaves.getD 1 0 = MERKLE_PADDING_VALUE ∧
    (0 : Nat) ≠ MERKLE_PADDING_VALUE :=
  ⟨(buildMerkleTree_padding wh2fn [wAddress] wTree wTree_build).1,
   (buildMerkleTree_padding wh2fn [wAddress] wTree wTree_build).2.1 1 (by decide) (by decide),
   (buildMerkleTree_padding wh2fn [wAddress] wTree wTree_build).2.2 wAddress 0 (by decide)⟩

/-- C5: `buildMerkleTree` fails with the capacity error whenever more than
`2 ^ TREE_DEPTH` addresses are supplied, and fails with the duplicate-entry
error whenever two addresses coincide after lowercasing (given the list is
within capacity); in both cases no tree is returned. -/
theorem buildMerkleTree_capacity_duplicate (h2 : Nat → Nat → Nat) (addresses : List String) :
    (2 ^ TREE_DEPTH < addresses.length →
      buildMerkleTree h2 addresses = .error "Too many addresses for tree depth") ∧
    (addresses.length ≤ 2 ^ TREE_DEPTH → ¬ (addresses.map String.toLower).Nodup →
      buildMerkleTree h2 addresses = .error "Duplicate addresses detected in voter list") := by
  constructor
  · intro h
    have hp : (0 : Nat) < 2 ^ TREE_DEPTH := Nat.two_pow_pos _
    unfold buildMerkleTree
    rw [if_neg (by omega), if_pos h]
  · intro h1 h2d
    have hdup : hasDup (addresses.map String.toLower) = true :=
      (hasDup_iff_not_nodup _).mpr h2d
    have hne : ¬ addresses.length = 0 := by
      intro h0
      rw [List.length_eq_zero] at h0
      subst h0
      simp at h2d
    unfold buildMerkleTree
    rw [if_neg hne, if_neg (by omega)]
    simp only []
    rw [if_pos hdup]

/-- Witness for C5: a 129-address list triggers the capacity error and a
repeated address triggers the duplicate error. -/
theorem buildMerkleTree_capacity_duplicate_witness :
    buildMerkleTree wh2fn (List.replicate 129 wAddress) =
      .error "Too many addresses for tree depth" ∧
    buildMerkleTree wh2fn [wAddress, wAddress] =
      .error "Duplicate addresses detected in voter list" :=
  ⟨(buildMerkleTree_capacity_duplicate wh2fn (List.replicate 129 wAddress)).1
      (by norm_num [TREE_DEPTH, List.length_replicate]),
   (buildMerkleTree_capacity_duplicate wh2fn [wAddress, wAddress]).2 (by decide)
      (by simp [List.nodup_cons])⟩

/-- C6: `getMerkleProof` fails whenever the leaf index is negative or at
least the leaf-level size; when it succeeds, the proof has `TREE_DEPTH`
siblings and path bits, at each level the path bit records whether the
running index `leafIndex / 2 ^ level` is a right child (odd), and the
sibling is the node next to it chosen by parity (even takes index + 1, odd
takes index - 1), the running index descending by floor halving. -/
theorem getMerkleProof_spec (tree : List (List Nat)) (leafIndex : Int) :
    ((leafIndex < 0 ∨ ((tree.headD []).length : Int) ≤ leafIndex) →
      ∃ e, getMerkleProof tree leafIndex = .error e) ∧
    (∀ pf, getMerkleProof tree leafIndex = .ok pf →
      0 ≤ leafIndex ∧ leafIndex < ((tree.headD []).length : Int) ∧
      pf.siblings.length = TREE_DEPTH ∧ pf.pathIndices.length = TREE_DEPTH ∧
      ∀ l, l < TREE_DEPTH →
        pf.pathIndices.getD l 0 = (if (leafIndex.toNat / 2 ^ l) % 2 = 1 then 1 else 0) ∧
        pf.siblings.getD l 0 =
          (tree.getD l []).getD (sibIndex (leafIndex.toNat / 2 ^ l)) 0) := by
  constructor
  · intro h
    unfold getMerkleProof
    by_cases h0 : tree.length = 0
    · rw [if_pos h0]; exact ⟨_, rfl⟩
    rcases h with h | h
    · rw [if_neg h0, if_pos h]; exact ⟨_, rfl⟩
    by_cases h1 : leafIndex < 0
    · rw [if_neg h0, if_pos h1]; exact ⟨_, rfl⟩
    rw [if_neg h0, if_neg h1, if_pos h]
    exact ⟨_, rfl⟩
  · intro pf h
    unfold getMerkleProof at h
    split_ifs at h with h0 h1 h2
    cases hbp : buildProofPath tree TREE_DEPTH leafIndex.toNat with
    | error e => rw [hbp] at h; exact absurd h (by simp)
    | ok p =>
      obtain ⟨sibs, pis⟩ := p
      rw [hbp] at h
      simp only [Except.ok.injEq] at h
      subst h
      obtain ⟨hl1, hl2, hl3⟩ := buildProofPath_ok TREE_DEPTH tree leafIndex.toNat sibs pis hbp
      exact ⟨by omega, by omega, hl1, hl2, hl3⟩

set_option maxRecDepth 8000 in
/-- Witness for C6: a negative index fails, and a concrete successful proof
on an all-zero depth-7 tree has the required shape. -/
theorem getMerkleProof_spec_witness :
    (∃ e, getMerkleProof [[0]] (-1) = Except.error e) ∧
    wPf6.siblings.length = TREE_DEPTH :=
  ⟨(getMerkleProof_spec [[0]] (-1)).1 (Or.inl (by decide)),
   ((getMerkleProof_spec wTree6 3).2 wPf6 (by decide)).2.2.1⟩

/-- C7: `validateEcdsaScalar` succeeds returning the value exactly when
`0 < v < N` for the secp256k1 order `N`, and fails with a range error
exactly when `v ≤ 0` (in particular at 0) or `v ≥ N`. -/
theorem validateEcdsaScalar_spec (v : Int) (name : String) :
    (validateEcdsaScalar v name = .ok v ↔ (0 < v ∧ v < (SECP256K1_N : Int))) ∧
    ((∃ e, validateEcdsaScalar v name = .error e) ↔ (v ≤ 0 ∨ (SECP256K1_N : Int) ≤ v)) := by
  by_cases h : 0 < v ∧ v < (SECP256K1_N : Int)
  · have hok := validateEcdsaScalar_pos v name h.1 h.2
    constructor
    · simp only [hok, true_iff]
      exact h
    · rw [hok]
      simp only [reduceCtorEq, exists_false, false_iff]
      omega
  · obtain ⟨e, he⟩ := validateEcdsaScalar_neg v name (by omega)
    constructor
    · rw [he]
      simp only [reduceCtorEq, false_iff]
      omega
    · exact ⟨fun _ => by omega, fun _ => ⟨e, he⟩⟩

/-- C8: `createDomain` fails whenever the topic id is empty, longer than
`MAX_TOPIC_ID_LENGTH`, or contains a character outside the allow-listed
alphanumeric/hyphen/underscore set; otherwise it returns the domain made of
the fixed configuration fields plus the hash of the topic id as salt. -/
theorem createDomain_spec (config : DomainConfig) (idHash : String → Nat) (topicId : String) :
    ((topicId = "" ∨ MAX_TOPIC_ID_LENGTH < topicId.length ∨
        ¬ topicId.data.all isTopicIdChar) →
      ∃ e, createDomain config idHash topicId = .error e) ∧
    (topicId ≠ "" → topicId.length ≤ MAX_TOPIC_ID_LENGTH → topicId.data.all isTopicIdChar →
      createDomain config idHash topicId =
        .ok { name := config.name, version := config.version, chainId := config.chainId,
              verifyingContract := config.verifyingContract, salt := idHash topicId }) := by
  constructor
  · intro h
    unfold createDomain
    by_cases h0 : topicId = ""
    · rw [if_pos h0]; exact ⟨_, rfl⟩
    rcases h with h | h | h
    · exact absurd h h0
    · rw [if_neg h0, if_pos h]; exact ⟨_, rfl⟩
    by_cases h1 : MAX_TOPIC_ID_LENGTH < topicId.length
    · rw [if_neg h0, if_pos h1]; exact ⟨_, rfl⟩
    rw [if_neg h0, if_neg h1, if_pos h]
    exact ⟨_, rfl⟩
  · intro h1 h2 h3
    unfold createDomain
    rw [if_neg h1, if_neg (not_lt.mpr h2), if_neg (by simp [h3])]

/-- Witness for C8: the empty topic id fails and a well-formed topic id
yields the spread configuration with the hashed salt. -/
theorem createDomain_spec_witness :
    (∃ e, createDomain wDomainConfig wIdHash "" = Except.error e) ∧
    createDomain wDomainConfig wIdHash "vote-topic-2024" =
      Except.ok { name := "ZKVoting", version := "1", chainId := 1,
                  verifyingContract := "0x0000000000000000000000000000000000000000",
                  salt := wIdHash "vote-topic-2024" } :=
  ⟨(createDomain_spec wDomainConfig wIdHash "").1 (Or.inl rfl),
   (createDomain_spec wDomainConfig wIdHash "vote-topic-2024").2 (by decide) (by decide)
     (by decide)⟩

/-- C9: the proof-input assembly fails whenever the supplied real proof's
arrays do not both have exactly `TREE_DEPTH` entries, every assembled record
has uniformly shaped arrays of length `TREE_DEPTH`, and the ineligible-voter
path substitutes the sentinel-filled pseudo-proof with zero path bits. -/
theorem assembleProofInput_spec
    (merkleRoot topicIdHash messageHash voterAddress sigR sigS sigV : Nat)
    (realProof : MerkleProof) :
    ((realProof.siblings.length ≠ TREE_DEPTH ∨ realProof.pathIndices.length ≠ TREE_DEPTH) →
      ∃ e, assembleProofInput merkleRoot topicIdHash messageHash voterAddress sigR sigS sigV
        false realProof = .error e) ∧
    (∀ (useInvalid : Bool) (inp : ProofInput),
      assembleProofInput merkleRoot topicIdHash messageHash voterAddress sigR sigS sigV
        useInvalid realProof = .ok inp →
      inp.pathElements.length = TREE_DEPTH ∧ inp.pathIndices.length = TREE_DEPTH) ∧
    (assembleProofInput merkleRoot topicIdHash messageHash voterAddress sigR sigS sigV
        true realProof =
      .ok { merkleRoot := merkleRoot, topicId := topicIdHash, messageHash := messageHash,
            voterAddress := voterAddress,
            pathElements := List.replicate TREE_DEPTH MERKLE_PADDING_VALUE,
            pathIndices := List.replicate TREE_DEPTH 0,
            sigR := sigR, sigS := sigS, sigV := sigV }) := by
  refine ⟨?_, ?_, ?_⟩
  · intro h
    unfold assembleProofInput
    simp only [Bool.false_eq_true, if_false]
    rcases h with h | h
    · rw [if_pos h]; exact ⟨_, rfl⟩
    by_cases h1 : realProof.siblings.length ≠ TREE_DEPTH
    · rw [if_pos h1]; exact ⟨_, rfl⟩
    rw [if_neg h1, if_pos h]
    exact ⟨_, rfl⟩
  · intro useInvalid inp h
    unfold assembleProofInput at h
    cases useInvalid with
    | false =>
      simp only [Bool.false_eq_true, if_false] at h
      split_ifs at h with hA hB
      simp only [Except.ok.injEq] at h
      subst h
      simp only [not_not] at hA hB
      exact ⟨hA, hB⟩
    | true =>
      simp only [if_true] at h
      rw [if_neg (by simp), if_neg (by simp)] at h
      simp only [Except.ok.injEq] at h
      subst h
      constructor <;> simp
  · rfl

/-- Witness for C9: an empty real proof fails the shape check and the
ineligible path yields the sentinel pseudo-proof record. -/
theorem assembleProofInput_spec_witness :
    (∃ e, assembleProofInput 1 2 3 4 5 6 7 false (MerkleProof.mk [] []) = Except.error e) ∧
    assembleProofInput 1 2 3 4 5 6 7 true (MerkleProof.mk [] []) =
      Except.ok { merkleRoot := 1, topicId := 2, messageHash := 3, voterAddress := 4,
                  pathElements := List.replicate TREE_DEPTH MERKLE_PADDING_VALUE,
                  pathIndices := List.replicate TREE_DEPTH 0,
                  sigR := 5, sigS := 6, sigV := 7 } :=
  ⟨(assembleProofInput_spec 1 2 3 4 5 6 7 (MerkleProof.mk [] [])).1 (Or.inl (by decide)),
   (assembleProofInput_spec 1 2 3 4 5 6 7 (MerkleProof.mk [] [])).2.2⟩

/-- C10: `buildMerkleTree` on the empty address list fails with an error
rather than returning a tree of all sentinel leaves. -/
theorem buildMerkleTree_empty (h2 : Nat → Nat → Nat) :
    buildMerkleTree h2 [] = .error "Cannot build Merkle tree from empty array" := rfl

end ZkVote
